import Mathlib

/-!
Verification of the poly-vote-listener repository: a blockchain event
listener that mirrors on-chain votes into a relational store.

The repository contains the Prisma schema (models Student, Election,
Position, Candidate, Vote with a unique constraint on
Vote(studentId, candidateId)) and several revisions of `listener.js`.
Two revisions carry the full logic and are both embedded here:

* the `V1` definitions embed the earlier revision (an unnamed source
  file): `processVoteEvent` resolves the voter by the lowercased wallet
  address, picks the first candidate of the position as a placeholder,
  and `syncVoteCounts` repairs drift by synthesizing Vote rows for
  eligible students; `main` exits the process when listener setup fails;

* the `Final` definitions embed the shipped `listener.js`:
  `processVoteEvent` resolves the voter by the verbatim wallet address,
  picks the candidate with the strictly highest on-chain vote count, and
  `syncVoteCounts` only logs drift; `main` retries after 60 s when
  listener setup fails.

The store is modelled as lists of rows.  `createVote` models
`prisma.vote.create` together with the server-side uniqueness constraint
on (studentId, candidateId): a duplicate insert is swallowed as a logged
no-op, which is how every call site's catch block treats it.  Caught
exceptions thrown while processing one position id are modelled by a
fault oracle `fault : String → Bool` saying which position ids throw.
-/

namespace PolyVote

/-! ### Data model (from the Prisma schema) -/

/-- A row of the `Student` model: primary key `id`, optional unique
`wallet`, and the `eligible` flag. -/
structure Student where
  id : String
  wallet : Option String
  eligible : Bool
deriving DecidableEq

/-- A row of the `Election` model (the fields the listener reads). -/
structure Election where
  id : String
  title : String
  liveStatus : String
  smartContractId : Option String
deriving DecidableEq

/-- A row of the `Position` model. -/
structure Position where
  id : String
  title : String
  electionId : String
deriving DecidableEq

/-- A row of the `Candidate` model (the fields the listener reads). -/
structure Candidate where
  id : String
  positionId : String
deriving DecidableEq

/-- A row of the `Vote` model; the schema declares
`@@unique([studentId, candidateId])`. -/
structure Vote where
  studentId : String
  candidateId : String
deriving DecidableEq

/-- The relational store plus the console log.  Only `votes` and `log`
are ever written by the listener. -/
structure Db where
  students : List Student
  elections : List Election
  positions : List Position
  candidates : List Candidate
  votes : List Vote
  log : List String
deriving DecidableEq

/-! ### On-chain data (what `contract.getElection` returns) -/

/-- A candidate as reported by the contract: id and vote count. -/
structure ChainCandidate where
  id : String
  voteCount : Nat
deriving DecidableEq

/-- A position as reported by the contract. -/
structure ChainPosition where
  id : String
  candidates : List ChainCandidate
deriving DecidableEq

/-- An election snapshot as reported by the contract. -/
structure ChainElection where
  positions : List ChainPosition
deriving DecidableEq

/-- The read-only ledger interface: `getElection` by election id;
`none` models a failed or empty blockchain query. -/
abbrev Ledger := String → Option ChainElection

/-! ### Store primitives -/

/-- Append one console line. -/
def addLog (db : Db) (m : String) : Db :=
  { db with log := db.log ++ [m] }

/-- `prisma.vote.findFirst({where: {studentId, candidateId}})` as a
boolean existence check on a vote list. -/
def voteExistsL (vs : List Vote) (sid cid : String) : Bool :=
  vs.any (fun v => decide (v.studentId = sid) && decide (v.candidateId = cid))

/-- `prisma.vote.count({where: {candidateId}})` on a vote list. -/
def dbVoteCountL (vs : List Vote) (cid : String) : Nat :=
  (vs.filter (fun v => decide (v.candidateId = cid))).length

/-- `prisma.vote.create` guarded by the schema's uniqueness constraint on
(studentId, candidateId): inserting an existing pair is a logged no-op
(every call site catches the constraint violation and continues). -/
def createVote (db : Db) (sid cid : String) : Db :=
  if voteExistsL db.votes sid cid then
    addLog db ("Unique constraint no-op for (" ++ sid ++ ", " ++ cid ++ ")")
  else
    { db with votes := db.votes ++ [⟨sid, cid⟩] }

/-! ### Voter and candidate resolution -/

/-- JavaScript `toLowerCase()` on an (ASCII) wallet address: lowercase
every character. -/
def lowerStr (s : String) : String :=
  ⟨s.data.map Char.toLower⟩

/-- V1 revision, `prisma.student.findFirst({where: {wallet:
voter.toLowerCase()}})`: the incoming address is lowercased before the
lookup. -/
def findStudentV1 (db : Db) (voter : String) : Option Student :=
  db.students.find? (fun st => decide (st.wallet = some (lowerStr voter)))

/-- Shipped revision, `prisma.student.findFirst({where: {wallet:
voter}})`: the incoming address is matched verbatim. -/
def findStudentFinal (db : Db) (voter : String) : Option Student :=
  db.students.find? (fun st => decide (st.wallet = some voter))

/-- `prisma.position.findFirst({where: {id: positionId, electionId}})`. -/
def findPositionV1 (db : Db) (eid pid : String) : Option Position :=
  db.positions.find? (fun p => decide (p.id = pid) && decide (p.electionId = eid))

/-- The candidates included with a position row. -/
def candidatesOf (db : Db) (pid : String) : List Candidate :=
  db.candidates.filter (fun c => decide (c.positionId = pid))

/-- One step of the shipped revision's highest-vote loop:
`if (votes > maxVotes) { maxVotes = votes; votedCandidateId = candidate.id }`. -/
def selectStep (acc : Nat × Option String) (c : ChainCandidate) : Nat × Option String :=
  if acc.1 < c.voteCount then (c.voteCount, some c.id) else acc

/-- The shipped revision's candidate-resolution heuristic: scan the
on-chain candidates keeping the strictly highest vote count, starting
from `maxVotes = 0`, `votedCandidateId = null`. -/
def selectVotedCandidate (cands : List ChainCandidate) : Option String :=
  (cands.foldl selectStep (0, none)).2

/-! ### Live ingestion, V1 revision -/

/-- Body of the per-position loop of the V1 `processVoteEvent`:
resolve the position (with its candidates), resolve the student by
lowercased wallet, take the first candidate as a placeholder, then
check-and-insert the Vote row. -/
def processPositionV1 (db : Db) (voter eid pid : String) : Db :=
  match findPositionV1 db eid pid with
  | none => addLog db ("Position " ++ pid ++ " not found in database for election " ++ eid)
  | some p =>
    match findStudentV1 db voter with
    | none => addLog db ("No student found with wallet address " ++ voter)
    | some st =>
      match (candidatesOf db p.id).head? with
      | none => addLog db ("No candidates found for position " ++ pid)
      | some cand =>
        if voteExistsL db.votes st.id cand.id then
          addLog db ("Vote already recorded for student " ++ st.id ++
            " and candidate " ++ cand.id)
        else
          addLog (createVote db st.id cand.id)
            ("Vote recorded for student " ++ st.id ++ " for position " ++ p.title)

/-- The V1 per-position loop with its per-iteration try/catch:
`fault pid = true` models an exception thrown while processing that
position id, which the catch block logs before the loop continues. -/
def ingestLoopV1 (fault : String → Bool) (db : Db) (voter eid : String)
    (pids : List String) : Db :=
  pids.foldl (fun acc pid =>
    if fault pid then
      addLog acc ("Error processing vote for position " ++ pid)
    else processPositionV1 acc voter eid pid) db

/-- The V1 `processVoteEvent`: loop over the event's position ids. -/
def processVoteEventV1 (fault : String → Bool) (db : Db) (voter eid : String)
    (pids : List String) : Db :=
  ingestLoopV1 fault db voter eid pids

/-! ### Live ingestion, shipped revision -/

/-- Body of the per-position loop of the shipped `processVoteEvent`:
find the on-chain position, apply the highest-vote heuristic (with the
JavaScript falsy check `!votedCandidateId`, which also rejects the empty
string), then check-and-insert the Vote row. -/
def processPositionFinal (chainPositions : List ChainPosition) (sid : String)
    (db : Db) (pid : String) : Db :=
  match chainPositions.find? (fun p => decide (p.id = pid)) with
  | none => addLog db ("Position " ++ pid ++ " not found in blockchain data")
  | some p =>
    match selectVotedCandidate p.candidates with
    | none => addLog db ("Could not determine voted candidate for position " ++ pid)
    | some cid =>
      if cid = "" then
        addLog db ("Could not determine voted candidate for position " ++ pid)
      else
        let db1 := addLog db ("Detected vote for candidate " ++ cid ++
          " in position " ++ pid)
        if voteExistsL db1.votes sid cid then
          addLog db1 ("Vote already exists for student " ++ sid ++
            " and candidate " ++ cid)
        else
          addLog (createVote db1 sid cid)
            ("Created vote record for student " ++ sid ++ " and candidate " ++ cid)

/-- The shipped per-position loop with its per-iteration try/catch
(fault oracle as in `ingestLoopV1`). -/
def ingestLoopFinal (fault : String → Bool) (chainPositions : List ChainPosition)
    (sid : String) (db : Db) (pids : List String) : Db :=
  pids.foldl (fun acc pid =>
    if fault pid then addLog acc ("Error processing position " ++ pid)
    else processPositionFinal chainPositions sid acc pid) db

/-- The shipped `processVoteEvent`: resolve the student by verbatim
wallet address, fetch the on-chain election, then loop over the event's
position ids. -/
def processVoteEventFinal (fault : String → Bool) (ledger : Ledger) (db : Db)
    (voter eid : String) (pids : List String) : Db :=
  match findStudentFinal db voter with
  | none => addLog db ("No student found with wallet address " ++ voter)
  | some st =>
    match ledger eid with
    | none => addLog db ("Could not retrieve blockchain data for election " ++ eid)
    | some chain => ingestLoopFinal fault chain.positions st.id db pids

/-! ### Reconciliation -/

/-- `prisma.election.findMany({where: {liveStatus: "LIVE",
smartContractId: {not: null}}})`. -/
def liveElections (db : Db) : List Election :=
  db.elections.filter (fun e =>
    decide (e.liveStatus = "LIVE") && e.smartContractId.isSome)

/-- The V1 eligible-student query for one candidate:
`prisma.student.findMany({where: {eligible: true, NOT: {Vote: {some:
{candidateId}}}}})`. -/
def poolL (students : List Student) (vs : List Vote) (cid : String) : List Student :=
  students.filter (fun st => st.eligible && !(voteExistsL vs st.id cid))

/-- V1 per-candidate repair: if the chain reports more votes than the
store holds, log the delta and create the missing votes, taking at most
`delta` eligible students who have not yet voted for this candidate. -/
def syncCandidate (db : Db) (cid : String) (chainCount : Nat) : Db :=
  if dbVoteCountL db.votes cid < chainCount then
    ((poolL db.students db.votes cid).take
        (chainCount - dbVoteCountL db.votes cid)).foldl
      (fun a st => createVote a st.id cid)
      (addLog db ("Adding " ++ toString (chainCount - dbVoteCountL db.votes cid) ++
        " missing votes for candidate " ++ cid))
  else db

/-- Shipped per-candidate step: log both counts and warn on mismatch;
no writes. -/
def syncCandidateFinal (db : Db) (cid : String) (chainCount : Nat) : Db :=
  if chainCount ≠ dbVoteCountL db.votes cid then
    addLog (addLog db ("Candidate " ++ cid ++ ": On-chain votes = " ++
        toString chainCount ++ ", Database votes = " ++
        toString (dbVoteCountL db.votes cid)))
      ("Vote count mismatch for candidate " ++ cid ++ ": On-chain=" ++
        toString chainCount ++ ", DB=" ++ toString (dbVoteCountL db.votes cid))
  else
    addLog db ("Candidate " ++ cid ++ ": On-chain votes = " ++
      toString chainCount ++ ", Database votes = " ++
      toString (dbVoteCountL db.votes cid))

/-- The election list the V1 pass fetches up front: each live election
with its positions, each position with its candidates (the Prisma
`include`). -/
def fetchLive (db : Db) : List (Election × List (Position × List Candidate)) :=
  (liveElections db).map (fun e =>
    (e, (db.positions.filter (fun p => decide (p.electionId = e.id))).map
      (fun p => (p, candidatesOf db p.id))))

/-- V1: handle one on-chain candidate: match it against the fetched
database candidates of the position, then repair its count. -/
def syncChainCandidateV1 (dbCands : List Candidate) (acc : Db)
    (bc : ChainCandidate) : Db :=
  match dbCands.find? (fun c => decide (c.id = bc.id)) with
  | none => addLog acc ("Candidate " ++ bc.id ++ " not found in database")
  | some dbc => syncCandidate acc dbc.id bc.voteCount

/-- V1: handle one on-chain position: match it against the fetched
database positions, then walk its candidates. -/
def syncChainPositionV1 (fps : List (Position × List Candidate)) (acc : Db)
    (bp : ChainPosition) : Db :=
  match fps.find? (fun pc => decide (pc.1.id = bp.id)) with
  | none => addLog acc ("Position " ++ bp.id ++ " not found in database")
  | some pc => bp.candidates.foldl (syncChainCandidateV1 pc.2) acc

/-- V1: handle one fetched election inside its try/catch: a failed
blockchain query is logged and the pass continues with the next
election. -/
def syncElectionV1 (ledger : Ledger) (acc : Db)
    (fe : Election × List (Position × List Candidate)) : Db :=
  match ledger fe.1.id with
  | none => addLog acc ("Error syncing election " ++ fe.1.id)
  | some chain => chain.positions.foldl (syncChainPositionV1 fe.2) acc

/-- The V1 `syncVoteCounts` reconciliation pass. -/
def syncVoteCountsV1 (ledger : Ledger) (db : Db) : Db :=
  (fetchLive db).foldl (syncElectionV1 ledger) db

/-- Shipped: handle one election: walk the on-chain positions and
candidates, logging counts and mismatches only. -/
def syncElectionFinal (ledger : Ledger) (acc : Db) (e : Election) : Db :=
  match ledger e.id with
  | none => addLog acc ("No data found on blockchain for election: " ++ e.title)
  | some chain =>
    chain.positions.foldl (fun a2 p =>
      p.candidates.foldl (fun a3 c => syncCandidateFinal a3 c.id c.voteCount) a2) acc

/-- The shipped `syncVoteCounts` reconciliation pass (report-only). -/
def syncVoteCountsFinal (ledger : Ledger) (db : Db) : Db :=
  (liveElections db).foldl (syncElectionFinal ledger) db

/-! ### Supervisor lifecycle -/

/-- What the supervisor does after its startup attempt. -/
inductive SupervisorAction where
  | running : SupervisorAction
  | retry : Nat → SupervisorAction
  | exitProcess : Nat → SupervisorAction
deriving DecidableEq

/-- How a startup attempt went: listener setup succeeded, setup returned
no contract, or an exception escaped the startup sequence. -/
inductive StartupEvent where
  | ok : StartupEvent
  | setupFailed : StartupEvent
  | faulted : StartupEvent
deriving DecidableEq

/-- The shipped `main`: a missing contract schedules
`setTimeout(main, 60000)`, and both the catch block and
`main().catch` schedule the same retry. -/
def mainFinal : StartupEvent → SupervisorAction
  | .ok => .running
  | .setupFailed => .retry 60000
  | .faulted => .retry 60000

/-- The V1 `main` (identical in the first `listener.js` revision): a
missing contract, the catch block, and `main().catch` all call
`process.exit(1)`. -/
def mainV1 : StartupEvent → SupervisorAction
  | .ok => .running
  | .setupFailed => .exitProcess 1
  | .faulted => .exitProcess 1

/-! ### Specification-side definitions -/

/-- At most one Vote row per (studentId, candidateId) pair. -/
def UniqL (vs : List Vote) : Prop :=
  (vs.map (fun v => (v.studentId, v.candidateId))).Nodup

/-- A candidate's drift is settled: the store already holds at least the
chain-reported count, or no eligible non-voting student is left. -/
def settledL (students : List Student) (vs : List Vote) (cid : String)
    (cnt : Nat) : Prop :=
  cnt ≤ dbVoteCountL vs cid ∨ poolL students vs cid = []

/-- Two store states that agree on every table (the console log may
differ). -/
def CoreEq (a b : Db) : Prop :=
  a.students = b.students ∧ a.elections = b.elections ∧
  a.positions = b.positions ∧ a.candidates = b.candidates ∧ a.votes = b.votes

/-- Concatenation of the lists produced for each element. -/
def catMap {α β : Type} (f : α → List β) : List α → List β
  | [] => []
  | a :: l => f a ++ catMap f l

/-- The repair item an on-chain candidate contributes to the V1 pass:
the matched database candidate id with the chain count. -/
def candItem (dbCands : List Candidate) (bc : ChainCandidate) : List (String × Nat) :=
  match dbCands.find? (fun c => decide (c.id = bc.id)) with
  | none => []
  | some dbc => [(dbc.id, bc.voteCount)]

/-- The repair items of one on-chain position. -/
def posItems (fps : List (Position × List Candidate)) (bp : ChainPosition) :
    List (String × Nat) :=
  match fps.find? (fun pc => decide (pc.1.id = bp.id)) with
  | none => []
  | some pc => catMap (candItem pc.2) bp.candidates

/-- The repair items of one fetched election. -/
def electionItems (ledger : Ledger)
    (fe : Election × List (Position × List Candidate)) : List (String × Nat) :=
  match ledger fe.1.id with
  | none => []
  | some chain => catMap (posItems fe.2) chain.positions

/-- All repair items of a V1 pass, in processing order. -/
def passItems (ledger : Ledger) (db : Db) : List (String × Nat) :=
  catMap (electionItems ledger) (fetchLive db)

/-- The V1 pass flattened to its repair items. -/
def itemsFold (items : List (String × Nat)) (db : Db) : Db :=
  items.foldl (fun a it => syncCandidate a it.1 it.2) db

/-- Two store states that agree on every table the listener never
writes (all tables except `votes`). -/
def TEq (a b : Db) : Prop :=
  a.students = b.students ∧ a.elections = b.elections ∧
  a.positions = b.positions ∧ a.candidates = b.candidates

/-! ### Concrete data for witnesses and counterexamples -/

/-- An eligible student whose stored wallet is lowercase. -/
def stA : Student := ⟨"s1", some "0xab", true⟩

/-- A second eligible student. -/
def stB : Student := ⟨"s2", some "0xcd", true⟩

/-- A live election bound to a contract. -/
def elecA : Election := ⟨"e1", "SUG Election", "LIVE", some "0xdead"⟩

/-- A position of `elecA`. -/
def posA : Position := ⟨"p1", "President", "e1"⟩

/-- First candidate of `posA`. -/
def candA : Candidate := ⟨"c1", "p1"⟩

/-- Second candidate of `posA`. -/
def candB : Candidate := ⟨"c2", "p1"⟩

/-- A small consistent store with no votes yet. -/
def baseDb : Db := ⟨[stA, stB], [elecA], [posA], [candA, candB], [], []⟩

/-- An on-chain snapshot of `elecA`: candidate c1 has 2 votes, c2 has 1. -/
def chainW : ChainElection := ⟨[⟨"p1", [⟨"c1", 2⟩, ⟨"c2", 1⟩]⟩]⟩

/-- A ledger knowing only election e1. -/
def ledgerW : Ledger := fun eid => if eid = "e1" then some chainW else none

/-- A fault oracle under which no position id throws. -/
def noFault : String → Bool := fun _ => false

/-- An on-chain position whose candidates all report zero votes. -/
def chainZ : ChainPosition := ⟨"p1", [⟨"c1", 0⟩, ⟨"c2", 0⟩]⟩

/-- A fault oracle under which only position id p2 throws. -/
def faultP2 : String → Bool := fun s => decide (s = "p2")

/-! ### Basic frame lemmas -/

theorem addLog_tEq (db : Db) (m : String) : TEq (addLog db m) db :=
  ⟨rfl, rfl, rfl, rfl⟩

theorem addLog_votes (db : Db) (m : String) : (addLog db m).votes = db.votes := rfl

theorem addLog_log (db : Db) (m : String) : (addLog db m).log = db.log ++ [m] := rfl

theorem tEq_refl (a : Db) : TEq a a := ⟨rfl, rfl, rfl, rfl⟩

theorem tEq_trans {a b c : Db} (h1 : TEq a b) (h2 : TEq b c) : TEq a c :=
  ⟨h1.1.trans h2.1, h1.2.1.trans h2.2.1, h1.2.2.1.trans h2.2.2.1,
   h1.2.2.2.trans h2.2.2.2⟩

theorem createVote_tEq (db : Db) (sid cid : String) :
    TEq (createVote db sid cid) db := by
  unfold createVote
  split
  · exact ⟨rfl, rfl, rfl, rfl⟩
  · exact ⟨rfl, rfl, rfl, rfl⟩

theorem createVote_votes_exists {db : Db} {sid cid : String}
    (h : voteExistsL db.votes sid cid = true) :
    (createVote db sid cid).votes = db.votes := by
  unfold createVote
  rw [if_pos h]
  rfl

theorem createVote_votes_not {db : Db} {sid cid : String}
    (h : voteExistsL db.votes sid cid = false) :
    (createVote db sid cid).votes = db.votes ++ [⟨sid, cid⟩] := by
  unfold createVote
  rw [if_neg (by simp [h])]

theorem createVote_ext (db : Db) (sid cid : String) :
    ∃ t, (createVote db sid cid).votes = db.votes ++ t := by
  unfold createVote
  split
  · exact ⟨[], by simp [addLog]⟩
  · exact ⟨[⟨sid, cid⟩], rfl⟩

/-! ### List-level helpers -/

theorem voteExistsL_append (vs ws : List Vote) (sid cid : String) :
    voteExistsL (vs ++ ws) sid cid = (voteExistsL vs sid cid || voteExistsL ws sid cid) := by
  simp [voteExistsL]

theorem dbVoteCountL_append (vs ws : List Vote) (cid : String) :
    dbVoteCountL (vs ++ ws) cid = dbVoteCountL vs cid + dbVoteCountL ws cid := by
  simp [dbVoteCountL]

theorem dbVoteCountL_map_self (ts : List Student) (cid : String) :
    dbVoteCountL (ts.map (fun t => Vote.mk t.id cid)) cid = ts.length := by
  induction ts with
  | nil => rfl
  | cons t ts ih => simp [dbVoteCountL, List.filter] at ih ⊢; omega

theorem pair_mem_iff (vs : List Vote) (sid cid : String) :
    voteExistsL vs sid cid = true ↔
      (sid, cid) ∈ vs.map (fun v => (v.studentId, v.candidateId)) := by
  simp only [voteExistsL, List.any_eq_true, List.mem_map, Bool.and_eq_true,
    decide_eq_true_eq]
  constructor
  · rintro ⟨v, hv, h1, h2⟩
    exact ⟨v, hv, by rw [h1, h2]⟩
  · rintro ⟨v, hv, h⟩
    exact ⟨v, hv, congrArg Prod.fst h, congrArg Prod.snd h⟩

theorem poolL_append_nil {students : List Student} {vs : List Vote} {cid : String}
    (h : poolL students vs cid = []) (ws : List Vote) :
    poolL students (vs ++ ws) cid = [] := by
  unfold poolL at h ⊢
  rw [List.filter_eq_nil_iff] at h ⊢
  intro st hst
  have h0 := h st hst
  simp only [Bool.and_eq_true, Bool.not_eq_true', not_and] at h0 ⊢
  intro he
  have h1 : voteExistsL vs st.id cid = true := by
    cases hx : voteExistsL vs st.id cid
    · exact absurd hx (h0 he)
    · rfl
  rw [voteExistsL_append, h1]
  simp

theorem settledL_append {students : List Student} {vs : List Vote} {cid : String}
    {cnt : Nat} (h : settledL students vs cid cnt) (ws : List Vote) :
    settledL students (vs ++ ws) cid cnt := by
  rcases h with h | h
  · left
    rw [dbVoteCountL_append]
    omega
  · right
    exact poolL_append_nil h ws

/-! ### Generic fold preservation -/

theorem foldl_preserve {α : Type} (P : Db → Prop) (g : Db → α → Db)
    (h : ∀ d x, P d → P (g d x)) :
    ∀ (l : List α) (d : Db), P d → P (l.foldl g d) := by
  intro l
  induction l with
  | nil => intro d hd; simpa using hd
  | cons a t ih =>
    intro d hd
    rw [List.foldl_cons]
    exact ih (g d a) (h d a hd)

theorem foldl_tEq {α : Type} (g : Db → α → Db) (h : ∀ d x, TEq (g d x) d) :
    ∀ (l : List α) (d : Db), TEq (l.foldl g d) d := by
  intro l d
  exact foldl_preserve (fun e => TEq e d) g (fun e x he => tEq_trans (h e x) he) l d
    (tEq_refl d)

/-! ### The vote-creation fold of the V1 repair -/

theorem fold_create_tEq (cid : String) (ts : List Student) (db : Db) :
    TEq (ts.foldl (fun a st => createVote a st.id cid) db) db :=
  foldl_tEq _ (fun d st => createVote_tEq d st.id cid) ts db

theorem fold_create_extra (cid : String) :
    ∀ (ts : List Student) (db : Db),
      ∃ extra : List Vote,
        (ts.foldl (fun a st => createVote a st.id cid) db).votes = db.votes ++ extra ∧
        ∀ v ∈ extra, v.candidateId = cid := by
  intro ts
  induction ts with
  | nil => intro db; exact ⟨[], by simp, by simp⟩
  | cons t ts ih =>
    intro db
    rw [List.foldl_cons]
    rcases ih (createVote db t.id cid) with ⟨e, he, hc⟩
    cases hx : voteExistsL db.votes t.id cid with
    | true =>
      refine ⟨e, ?_, hc⟩
      rw [he, createVote_votes_exists hx]
    | false =>
      refine ⟨⟨t.id, cid⟩ :: e, ?_, ?_⟩
      · rw [he, createVote_votes_not hx, List.append_assoc]
        rfl
      · intro v hv
        rcases List.mem_cons.mp hv with h | h
        · rw [h]
        · exact hc v h

theorem fold_create_exact (cid : String) :
    ∀ (ts : List Student) (db : Db),
      (ts.map Student.id).Nodup →
      (∀ t ∈ ts, voteExistsL db.votes t.id cid = false) →
      (ts.foldl (fun a st => createVote a st.id cid) db).votes
        = db.votes ++ ts.map (fun t => Vote.mk t.id cid) := by
  intro ts
  induction ts with
  | nil => intro db _ _; simp
  | cons t ts ih =>
    intro db hnd hnv
    rw [List.foldl_cons]
    have hx : voteExistsL db.votes t.id cid = false := hnv t (List.mem_cons_self t ts)
    have h1 : (createVote db t.id cid).votes = db.votes ++ [⟨t.id, cid⟩] :=
      createVote_votes_not hx
    rw [List.map_cons, List.nodup_cons] at hnd
    have hnv' : ∀ u ∈ ts, voteExistsL (createVote db t.id cid).votes u.id cid = false := by
      intro u hu
      rw [h1, voteExistsL_append, hnv u (List.mem_cons_of_mem t hu)]
      have hne : t.id ≠ u.id := by
        intro h
        exact hnd.1 (h ▸ List.mem_map_of_mem Student.id hu)
      simp [voteExistsL, hne]
    rw [ih (createVote db t.id cid) hnd.2 hnv', h1, List.append_assoc]
    rfl

/-! ### Per-candidate repair lemmas -/

theorem syncCandidate_tEq (db : Db) (cid : String) (cnt : Nat) :
    TEq (syncCandidate db cid cnt) db := by
  unfold syncCandidate
  split
  · exact tEq_trans (fold_create_tEq cid _ _) (addLog_tEq db _)
  · exact tEq_refl db

theorem syncCandidate_ext (db : Db) (cid : String) (cnt : Nat) :
    ∃ extra : List Vote,
      (syncCandidate db cid cnt).votes = db.votes ++ extra ∧
      ∀ v ∈ extra, v.candidateId = cid := by
  unfold syncCandidate
  split
  · rcases fold_create_extra cid
      ((poolL db.students db.votes cid).take (cnt - dbVoteCountL db.votes cid))
      (addLog db ("Adding " ++ toString (cnt - dbVoteCountL db.votes cid) ++
        " missing votes for candidate " ++ cid)) with ⟨e, he, hc⟩
    exact ⟨e, he, hc⟩
  · exact ⟨[], by simp, by simp⟩

theorem syncCandidate_preserves_settled {db : Db} {cid' : String} {cnt' : Nat}
    (cid : String) (cnt : Nat)
    (h : settledL db.students db.votes cid' cnt') :
    settledL (syncCandidate db cid cnt).students (syncCandidate db cid cnt).votes
      cid' cnt' := by
  rcases syncCandidate_ext db cid cnt with ⟨extra, hv, _⟩
  rw [(syncCandidate_tEq db cid cnt).1, hv]
  exact settledL_append h extra

theorem syncCandidate_noop {db : Db} {cid : String} {cnt : Nat}
    (h : settledL db.students db.votes cid cnt) :
    (syncCandidate db cid cnt).votes = db.votes ∧
    (syncCandidate db cid cnt).students = db.students := by
  unfold syncCandidate
  split
  · rcases h with h | h
    · omega
    · rw [h]
      simp
      exact ⟨rfl, rfl⟩
  · exact ⟨rfl, rfl⟩

theorem syncCandidate_settled (db : Db) (cid : String) (cnt : Nat)
    (hnd : (db.students.map Student.id).Nodup) :
    settledL (syncCandidate db cid cnt).students (syncCandidate db cid cnt).votes
      cid cnt := by
  unfold syncCandidate
  split
  case isFalse hlt =>
    left
    omega
  case isTrue hlt =>
    set pool := poolL db.students db.votes cid with hpool
    set delta := cnt - dbVoteCountL db.votes cid with hdelta
    set db1 := addLog db ("Adding " ++ toString delta ++
      " missing votes for candidate " ++ cid) with hdb1
    set chosen := pool.take delta with hchosen
    have hsubl : chosen.Sublist db.students :=
      (List.take_sublist delta pool).trans (List.filter_sublist db.students)
    have hndc : (chosen.map Student.id).Nodup :=
      List.Nodup.sublist (List.Sublist.map Student.id hsubl) hnd
    have hnvc : ∀ t ∈ chosen, voteExistsL db1.votes t.id cid = false := by
      intro t ht
      have hp : t ∈ pool := (List.take_sublist delta pool).subset ht
      have := List.of_mem_filter hp
      simp only [Bool.and_eq_true, Bool.not_eq_true'] at this
      exact this.2
    have hfold := fold_create_exact cid chosen db1 hndc hnvc
    have hst : (chosen.foldl (fun a st => createVote a st.id cid) db1).students
        = db.students := (fold_create_tEq cid chosen db1).1
    rw [hst, hfold]
    show settledL db.students (db.votes ++ chosen.map fun t => Vote.mk t.id cid) cid cnt
    rcases le_or_lt delta pool.length with hlen | hlen
    · left
      rw [dbVoteCountL_append, dbVoteCountL_map_self]
      have : chosen.length = delta := by
        rw [hchosen, List.length_take]
        omega
      omega
    · right
      have hch : chosen = pool := List.take_of_length_le (Nat.le_of_lt hlen)
      unfold poolL
      rw [List.filter_eq_nil_iff]
      intro st hst'
      simp only [Bool.and_eq_true, Bool.not_eq_true', not_and]
      intro he
      cases hx : voteExistsL db.votes st.id cid with
      | true =>
        rw [voteExistsL_append, hx]
        simp
      | false =>
        have hstp : st ∈ pool := by
          rw [hpool]
          unfold poolL
          exact List.mem_filter.mpr ⟨hst', by rw [Bool.and_eq_true, he, hx]; simp⟩
        have hmemv : Vote.mk st.id cid ∈ chosen.map (fun t => Vote.mk t.id cid) :=
          List.mem_map_of_mem _ (hch ▸ hstp)
        have h2 : voteExistsL (chosen.map fun t => Vote.mk t.id cid) st.id cid = true := by
          rw [voteExistsL]
          rw [List.any_eq_true]
          exact ⟨Vote.mk st.id cid, hmemv, by simp⟩
        rw [voteExistsL_append, h2]
        simp

/-! ### The flattened pass -/

theorem itemsFold_nil (db : Db) : itemsFold [] db = db := rfl

theorem itemsFold_cons (it : String × Nat) (l : List (String × Nat)) (db : Db) :
    itemsFold (it :: l) db = itemsFold l (syncCandidate db it.1 it.2) := rfl

theorem itemsFold_append (l1 l2 : List (String × Nat)) (db : Db) :
    itemsFold (l1 ++ l2) db = itemsFold l2 (itemsFold l1 db) := by
  unfold itemsFold
  exact List.foldl_append _ _ l1 l2

theorem itemsFold_tEq (items : List (String × Nat)) (db : Db) :
    TEq (itemsFold items db) db := by
  unfold itemsFold
  exact foldl_tEq _ (fun d it => syncCandidate_tEq d it.1 it.2) items db

theorem itemsFold_preserves_settled {db : Db} {cid : String} {cnt : Nat}
    (items : List (String × Nat))
    (h : settledL db.students db.votes cid cnt) :
    settledL (itemsFold items db).students (itemsFold items db).votes cid cnt :=
  foldl_preserve (fun d => settledL d.students d.votes cid cnt) _
    (fun _ it hd => syncCandidate_preserves_settled it.1 it.2 hd) items db h

theorem itemsFold_establishes :
    ∀ (items : List (String × Nat)) (db : Db),
      (db.students.map Student.id).Nodup →
      ∀ it ∈ items,
        settledL (itemsFold items db).students (itemsFold items db).votes it.1 it.2 := by
  intro items
  induction items with
  | nil => intro db _ it hit; simp at hit
  | cons it0 rest ih =>
    intro db hnd it hit
    rw [itemsFold_cons]
    rcases List.mem_cons.mp hit with heq | hmem
    · rw [heq]
      exact itemsFold_preserves_settled rest
        (syncCandidate_settled db it0.1 it0.2 hnd)
    · have hnd1 : ((syncCandidate db it0.1 it0.2).students.map Student.id).Nodup := by
        rw [(syncCandidate_tEq db it0.1 it0.2).1]
        exact hnd
      exact ih (syncCandidate db it0.1 it0.2) hnd1 it hmem

theorem itemsFold_noop :
    ∀ (items : List (String × Nat)) (db : Db),
      (∀ it ∈ items, settledL db.students db.votes it.1 it.2) →
      (itemsFold items db).votes = db.votes ∧
      (itemsFold items db).students = db.students := by
  intro items
  induction items with
  | nil => intro db _; exact ⟨rfl, rfl⟩
  | cons it0 rest ih =>
    intro db h
    rw [itemsFold_cons]
    have h0 := syncCandidate_noop (h it0 (List.mem_cons_self it0 rest))
    have hrest : ∀ x ∈ rest,
        settledL (syncCandidate db it0.1 it0.2).students
          (syncCandidate db it0.1 it0.2).votes x.1 x.2 := by
      intro x hx
      rw [h0.1, h0.2]
      exact h x (List.mem_cons_of_mem it0 hx)
    obtain ⟨hv, hs⟩ := ih (syncCandidate db it0.1 it0.2) hrest
    exact ⟨hv.trans h0.1, hs.trans h0.2⟩

/-! ### Log-insensitivity: the V1 pass equals its flattening on every table -/

theorem coreEq_refl (a : Db) : CoreEq a a := ⟨rfl, rfl, rfl, rfl, rfl⟩

theorem coreEq_addLog_left {a b : Db} (h : CoreEq a b) (m : String) :
    CoreEq (addLog a m) b := h

theorem createVote_coreEq {a b : Db} (h : CoreEq a b) (sid cid : String) :
    CoreEq (createVote a sid cid) (createVote b sid cid) := by
  obtain ⟨h1, h2, h3, h4, h5⟩ := h
  unfold createVote
  rw [h5]
  split
  · exact ⟨h1, h2, h3, h4, h5⟩
  · exact ⟨h1, h2, h3, h4, by simp [h5]⟩

theorem fold_create_coreEq (cid : String) :
    ∀ (ts : List Student) {a b : Db}, CoreEq a b →
      CoreEq (ts.foldl (fun x st => createVote x st.id cid) a)
             (ts.foldl (fun x st => createVote x st.id cid) b) := by
  intro ts
  induction ts with
  | nil => intro a b h; exact h
  | cons t ts ih =>
    intro a b h
    rw [List.foldl_cons, List.foldl_cons]
    exact ih (createVote_coreEq h t.id cid)

theorem syncCandidate_coreEq {a b : Db} (h : CoreEq a b) (cid : String) (cnt : Nat) :
    CoreEq (syncCandidate a cid cnt) (syncCandidate b cid cnt) := by
  obtain ⟨h1, h2, h3, h4, h5⟩ := h
  unfold syncCandidate
  rw [h5, h1]
  split
  · exact fold_create_coreEq cid _ ⟨h1, h2, h3, h4, h5⟩
  · exact ⟨h1, h2, h3, h4, h5⟩

theorem syncChainCandidateV1_flat (dbCands : List Candidate) (bc : ChainCandidate)
    {a b : Db} (h : CoreEq a b) :
    CoreEq (syncChainCandidateV1 dbCands a bc) (itemsFold (candItem dbCands bc) b) := by
  unfold syncChainCandidateV1 candItem
  cases dbCands.find? (fun c => decide (c.id = bc.id)) with
  | none => exact coreEq_addLog_left h _
  | some dbc => exact syncCandidate_coreEq h dbc.id bc.voteCount

theorem candFold_flat (dbCands : List Candidate) :
    ∀ (cs : List ChainCandidate) {a b : Db}, CoreEq a b →
      CoreEq (cs.foldl (syncChainCandidateV1 dbCands) a)
             (itemsFold (catMap (candItem dbCands) cs) b) := by
  intro cs
  induction cs with
  | nil => intro a b h; exact h
  | cons c cs ih =>
    intro a b h
    rw [List.foldl_cons]
    show CoreEq _ (itemsFold (candItem dbCands c ++ catMap (candItem dbCands) cs) b)
    rw [itemsFold_append]
    exact ih (syncChainCandidateV1_flat dbCands c h)

theorem syncChainPositionV1_flat (fps : List (Position × List Candidate))
    (bp : ChainPosition) {a b : Db} (h : CoreEq a b) :
    CoreEq (syncChainPositionV1 fps a bp) (itemsFold (posItems fps bp) b) := by
  unfold syncChainPositionV1 posItems
  cases fps.find? (fun pc => decide (pc.1.id = bp.id)) with
  | none => exact coreEq_addLog_left h _
  | some pc => exact candFold_flat pc.2 bp.candidates h

theorem posFold_flat (fps : List (Position × List Candidate)) :
    ∀ (ps : List ChainPosition) {a b : Db}, CoreEq a b →
      CoreEq (ps.foldl (syncChainPositionV1 fps) a)
             (itemsFold (catMap (posItems fps) ps) b) := by
  intro ps
  induction ps with
  | nil => intro a b h; exact h
  | cons p ps ih =>
    intro a b h
    rw [List.foldl_cons]
    show CoreEq _ (itemsFold (posItems fps p ++ catMap (posItems fps) ps) b)
    rw [itemsFold_append]
    exact ih (syncChainPositionV1_flat fps p h)

theorem syncElectionV1_flat (ledger : Ledger)
    (fe : Election × List (Position × List Candidate)) {a b : Db} (h : CoreEq a b) :
    CoreEq (syncElectionV1 ledger a fe) (itemsFold (electionItems ledger fe) b) := by
  unfold syncElectionV1 electionItems
  cases ledger fe.1.id with
  | none => exact coreEq_addLog_left h _
  | some chain => exact posFold_flat fe.2 chain.positions h

theorem electionsFold_flat (ledger : Ledger) :
    ∀ (fes : List (Election × List (Position × List Candidate))) {a b : Db},
      CoreEq a b →
      CoreEq (fes.foldl (syncElectionV1 ledger) a)
             (itemsFold (catMap (electionItems ledger) fes) b) := by
  intro fes
  induction fes with
  | nil => intro a b h; exact h
  | cons fe fes ih =>
    intro a b h
    rw [List.foldl_cons]
    show CoreEq _ (itemsFold (electionItems ledger fe ++ catMap (electionItems ledger) fes) b)
    rw [itemsFold_append]
    exact ih (syncElectionV1_flat ledger fe h)

theorem pass_flat (ledger : Ledger) (db : Db) :
    CoreEq (syncVoteCountsV1 ledger db) (itemsFold (passItems ledger db) db) := by
  unfold syncVoteCountsV1 passItems
  exact electionsFold_flat ledger (fetchLive db) (coreEq_refl db)

theorem fetchLive_congr {a b : Db} (h2 : a.elections = b.elections)
    (h3 : a.positions = b.positions) (h4 : a.candidates = b.candidates) :
    fetchLive a = fetchLive b := by
  unfold fetchLive liveElections candidatesOf
  rw [h2, h3, h4]

/-- C4 (claim theorem). Reconciliation is idempotent: for every store
state whose students carry distinct primary keys and every fixed ledger
snapshot, running the V1 `syncVoteCounts` pass twice in succession adds
no Vote row on the second pass — each candidate's delta is recomputed
from the current Vote-row count, and after the first pass it is either
zero or its eligible-student pool is exhausted. -/
theorem syncVoteCountsV1_idempotent (ledger : Ledger) (db : Db)
    (hnd : (db.students.map Student.id).Nodup) :
    (syncVoteCountsV1 ledger (syncVoteCountsV1 ledger db)).votes
      = (syncVoteCountsV1 ledger db).votes := by
  have h1 : CoreEq (syncVoteCountsV1 ledger db)
      (itemsFold (passItems ledger db) db) := pass_flat ledger db
  have htab := itemsFold_tEq (passItems ledger db) db
  -- the first pass leaves every table except votes unchanged
  have hs : (syncVoteCountsV1 ledger db).students = db.students :=
    h1.1.trans htab.1
  have he : (syncVoteCountsV1 ledger db).elections = db.elections :=
    h1.2.1.trans htab.2.1
  have hp : (syncVoteCountsV1 ledger db).positions = db.positions :=
    h1.2.2.1.trans htab.2.2.1
  have hc : (syncVoteCountsV1 ledger db).candidates = db.candidates :=
    h1.2.2.2.1.trans htab.2.2.2
  -- hence the second pass fetches the same elections and repair items
  have hfetch : fetchLive (syncVoteCountsV1 ledger db) = fetchLive db :=
    fetchLive_congr he hp hc
  have hitems : passItems ledger (syncVoteCountsV1 ledger db) = passItems ledger db := by
    unfold passItems
    rw [hfetch]
  have h2 : CoreEq (syncVoteCountsV1 ledger (syncVoteCountsV1 ledger db))
      (itemsFold (passItems ledger db) (syncVoteCountsV1 ledger db)) := by
    have := pass_flat ledger (syncVoteCountsV1 ledger db)
    rw [hitems] at this
    exact this
  -- after the first pass every repair item is settled
  have hset : ∀ it ∈ passItems ledger db,
      settledL (syncVoteCountsV1 ledger db).students
        (syncVoteCountsV1 ledger db).votes it.1 it.2 := by
    intro it hit
    have hest := itemsFold_establishes (passItems ledger db) db hnd it hit
    rw [h1.1, h1.2.2.2.2]
    exact hest
  have hno := itemsFold_noop (passItems ledger db) (syncVoteCountsV1 ledger db) hset
  rw [h2.2.2.2.2]
  exact hno.1

/-- Witness for C4: at a concrete store and ledger the hypothesis holds
and a second pass adds nothing. -/
theorem syncVoteCountsV1_idempotent_witness :
    (baseDb.students.map Student.id).Nodup ∧
    (syncVoteCountsV1 ledgerW (syncVoteCountsV1 ledgerW baseDb)).votes
      = (syncVoteCountsV1 ledgerW baseDb).votes :=
  ⟨by decide, syncVoteCountsV1_idempotent ledgerW baseDb (by decide)⟩

/-! ### Preservation of the (studentId, candidateId) uniqueness invariant -/

theorem createVote_uniq {db : Db} (h : UniqL db.votes) (sid cid : String) :
    UniqL (createVote db sid cid).votes := by
  unfold createVote
  split
  case isTrue => exact h
  case isFalse hx =>
    show UniqL (db.votes ++ [⟨sid, cid⟩])
    unfold UniqL at h ⊢
    rw [List.map_append, List.nodup_append]
    refine ⟨h, by simp, ?_⟩
    intro a ha hb
    simp only [List.map_cons, List.map_nil, List.mem_singleton] at hb
    exact hx ((pair_mem_iff db.votes sid cid).mpr (hb ▸ ha))

theorem processPositionV1_uniq {db : Db} (h : UniqL db.votes)
    (voter eid pid : String) :
    UniqL (processPositionV1 db voter eid pid).votes := by
  unfold processPositionV1
  split
  · exact h
  · split
    · exact h
    · split
      · exact h
      · split
        · exact h
        · exact createVote_uniq h _ _

theorem ingestLoopV1_uniq (fault : String → Bool) (voter eid : String)
    (pids : List String) {db : Db} (h : UniqL db.votes) :
    UniqL (ingestLoopV1 fault db voter eid pids).votes := by
  unfold ingestLoopV1
  refine foldl_preserve (fun d => UniqL d.votes) _ ?_ pids db h
  intro d x hd
  dsimp only
  split
  · exact hd
  · exact processPositionV1_uniq hd voter eid x

theorem processPositionFinal_uniq (chainPositions : List ChainPosition)
    (sid : String) {db : Db} (h : UniqL db.votes) (pid : String) :
    UniqL (processPositionFinal chainPositions sid db pid).votes := by
  unfold processPositionFinal
  split
  · exact h
  · split
    · exact h
    · split
      · exact h
      · dsimp only
        split
        · exact h
        · apply createVote_uniq
          exact h

theorem ingestLoopFinal_uniq (fault : String → Bool)
    (chainPositions : List ChainPosition) (sid : String) (pids : List String)
    {db : Db} (h : UniqL db.votes) :
    UniqL (ingestLoopFinal fault chainPositions sid db pids).votes := by
  unfold ingestLoopFinal
  refine foldl_preserve (fun d => UniqL d.votes) _ ?_ pids db h
  intro d x hd
  dsimp only
  split
  · exact hd
  · exact processPositionFinal_uniq chainPositions sid hd x

theorem syncCandidate_uniq {db : Db} (h : UniqL db.votes) (cid : String)
    (cnt : Nat) :
    UniqL (syncCandidate db cid cnt).votes := by
  unfold syncCandidate
  split
  · exact foldl_preserve (fun d => UniqL d.votes) _
      (fun d st hd => createVote_uniq hd st.id cid) _ _ h
  · exact h

theorem syncChainCandidateV1_uniq (dbCands : List Candidate)
    (bc : ChainCandidate) {db : Db} (h : UniqL db.votes) :
    UniqL (syncChainCandidateV1 dbCands db bc).votes := by
  unfold syncChainCandidateV1
  cases dbCands.find? (fun c => decide (c.id = bc.id)) with
  | none => exact h
  | some dbc => exact syncCandidate_uniq h dbc.id bc.voteCount

theorem syncChainPositionV1_uniq (fps : List (Position × List Candidate))
    (bp : ChainPosition) {db : Db} (h : UniqL db.votes) :
    UniqL (syncChainPositionV1 fps db bp).votes := by
  unfold syncChainPositionV1
  cases fps.find? (fun pc => decide (pc.1.id = bp.id)) with
  | none => exact h
  | some pc =>
    exact foldl_preserve (fun d => UniqL d.votes) _
      (fun d bc hd => syncChainCandidateV1_uniq pc.2 bc hd) bp.candidates db h

theorem syncElectionV1_uniq (ledger : Ledger)
    (fe : Election × List (Position × List Candidate)) {db : Db}
    (h : UniqL db.votes) :
    UniqL (syncElectionV1 ledger db fe).votes := by
  unfold syncElectionV1
  cases ledger fe.1.id with
  | none => exact h
  | some chain =>
    exact foldl_preserve (fun d => UniqL d.votes) _
      (fun d bp hd => syncChainPositionV1_uniq fe.2 bp hd) chain.positions db h

theorem syncVoteCountsV1_uniq (ledger : Ledger) {db : Db} (h : UniqL db.votes) :
    UniqL (syncVoteCountsV1 ledger db).votes := by
  unfold syncVoteCountsV1
  exact foldl_preserve (fun d => UniqL d.votes) _
    (fun d fe hd => syncElectionV1_uniq ledger fe hd) (fetchLive db) db h

/-! ### The shipped reconciliation never writes votes -/

theorem syncCandidateFinal_votes (db : Db) (cid : String) (cnt : Nat) :
    (syncCandidateFinal db cid cnt).votes = db.votes := by
  unfold syncCandidateFinal
  split <;> rfl

theorem syncElectionFinal_votes (ledger : Ledger) (acc : Db) (e : Election) :
    (syncElectionFinal ledger acc e).votes = acc.votes := by
  unfold syncElectionFinal
  cases ledger e.id with
  | none => rfl
  | some chain =>
    refine foldl_preserve (fun d => d.votes = acc.votes) _ ?_ chain.positions acc rfl
    intro d p hd
    refine foldl_preserve (fun d2 => d2.votes = acc.votes) _ ?_ p.candidates d hd
    intro d2 c hd2
    rw [syncCandidateFinal_votes]
    exact hd2

theorem syncVoteCountsFinal_votes (ledger : Ledger) (db : Db) :
    (syncVoteCountsFinal ledger db).votes = db.votes := by
  unfold syncVoteCountsFinal
  refine foldl_preserve (fun d => d.votes = db.votes) _ ?_ (liveElections db) db rfl
  intro d e hd
  rw [syncElectionFinal_votes]
  exact hd

/-- C1 (claim theorem). At most one Vote row ever exists per
(Student, Candidate) pair: every core operation — live ingestion in both
revisions and both reconciliation passes — preserves distinctness of the
(studentId, candidateId) pairs, with the modelled uniqueness constraint
inside `createVote` as the final guard. -/
theorem vote_pair_unique_invariant :
    (∀ (fault : String → Bool) (db : Db) (voter eid : String) (pids : List String),
      UniqL db.votes → UniqL (processVoteEventV1 fault db voter eid pids).votes) ∧
    (∀ (fault : String → Bool) (ledger : Ledger) (db : Db) (voter eid : String)
        (pids : List String),
      UniqL db.votes → UniqL (processVoteEventFinal fault ledger db voter eid pids).votes) ∧
    (∀ (ledger : Ledger) (db : Db),
      UniqL db.votes → UniqL (syncVoteCountsV1 ledger db).votes) ∧
    (∀ (ledger : Ledger) (db : Db),
      UniqL db.votes → UniqL (syncVoteCountsFinal ledger db).votes) := by
  refine ⟨?_, ?_, ?_, ?_⟩
  · intro fault db voter eid pids h
    exact ingestLoopV1_uniq fault voter eid pids h
  · intro fault ledger db voter eid pids h
    unfold processVoteEventFinal
    cases findStudentFinal db voter with
    | none => exact h
    | some st =>
      cases ledger eid with
      | none => exact h
      | some chain => exact ingestLoopFinal_uniq fault chain.positions st.id pids h
  · intro ledger db h
    exact syncVoteCountsV1_uniq ledger h
  · intro ledger db h
    rw [UniqL, syncVoteCountsFinal_votes]
    exact h

/-- Witness for C1: the invariant hypothesis holds at a concrete store
and is preserved by a concrete ingestion call. -/
theorem vote_pair_unique_invariant_witness :
    UniqL baseDb.votes ∧
    UniqL (processVoteEventV1 noFault baseDb "0xab" "e1" ["p1"]).votes :=
  ⟨by unfold UniqL; decide,
   vote_pair_unique_invariant.1 noFault baseDb "0xab" "e1" ["p1"]
     (by unfold UniqL; decide)⟩

/-! ### Append-only extension lemmas -/

theorem votesExt_trans {a b c : Db} (h1 : ∃ t, b.votes = a.votes ++ t)
    (h2 : ∃ u, c.votes = b.votes ++ u) : ∃ w, c.votes = a.votes ++ w := by
  rcases h1 with ⟨t, ht⟩
  rcases h2 with ⟨u, hu⟩
  exact ⟨t ++ u, by rw [hu, ht, List.append_assoc]⟩

theorem processPositionV1_ext (db : Db) (voter eid pid : String) :
    ∃ t, (processPositionV1 db voter eid pid).votes = db.votes ++ t := by
  unfold processPositionV1
  split
  · exact ⟨[], (List.append_nil _).symm⟩
  · split
    · exact ⟨[], (List.append_nil _).symm⟩
    · split
      · exact ⟨[], (List.append_nil _).symm⟩
      · split
        · exact ⟨[], (List.append_nil _).symm⟩
        · rw [addLog_votes]
          exact createVote_ext db _ _

theorem ingestLoopV1_ext (fault : String → Bool) (voter eid : String)
    (pids : List String) (db : Db) :
    ∃ t, (ingestLoopV1 fault db voter eid pids).votes = db.votes ++ t := by
  unfold ingestLoopV1
  refine foldl_preserve (fun d => ∃ t, d.votes = db.votes ++ t) _ ?_ pids db
    ⟨[], (List.append_nil _).symm⟩
  intro d x hd
  dsimp only
  split
  · rw [addLog_votes]
    exact hd
  · exact votesExt_trans hd (processPositionV1_ext d voter eid x)

theorem processPositionFinal_ext (chainPositions : List ChainPosition)
    (sid : String) (db : Db) (pid : String) :
    ∃ t, (processPositionFinal chainPositions sid db pid).votes = db.votes ++ t := by
  unfold processPositionFinal
  split
  · exact ⟨[], (List.append_nil _).symm⟩
  · split
    · exact ⟨[], (List.append_nil _).symm⟩
    · split
      · exact ⟨[], (List.append_nil _).symm⟩
      · dsimp only
        split
        · exact ⟨[], (List.append_nil _).symm⟩
        · rw [addLog_votes]
          exact createVote_ext _ _ _

theorem ingestLoopFinal_ext (fault : String → Bool)
    (chainPositions : List ChainPosition) (sid : String) (pids : List String)
    (db : Db) :
    ∃ t, (ingestLoopFinal fault chainPositions sid db pids).votes = db.votes ++ t := by
  unfold ingestLoopFinal
  refine foldl_preserve (fun d => ∃ t, d.votes = db.votes ++ t) _ ?_ pids db
    ⟨[], (List.append_nil _).symm⟩
  intro d x hd
  dsimp only
  split
  · rw [addLog_votes]
    exact hd
  · exact votesExt_trans hd (processPositionFinal_ext chainPositions sid d x)

theorem syncChainCandidateV1_ext (dbCands : List Candidate) (db : Db)
    (bc : ChainCandidate) :
    ∃ t, (syncChainCandidateV1 dbCands db bc).votes = db.votes ++ t := by
  unfold syncChainCandidateV1
  split
  · exact ⟨[], (List.append_nil _).symm⟩
  · rcases syncCandidate_ext db _ _ with ⟨e, he, _⟩
    exact ⟨e, he⟩

theorem syncChainPositionV1_ext (fps : List (Position × List Candidate)) (db : Db)
    (bp : ChainPosition) :
    ∃ t, (syncChainPositionV1 fps db bp).votes = db.votes ++ t := by
  unfold syncChainPositionV1
  split
  · exact ⟨[], (List.append_nil _).symm⟩
  · refine foldl_preserve (fun d => ∃ t, d.votes = db.votes ++ t) _ ?_ bp.candidates db
      ⟨[], (List.append_nil _).symm⟩
    intro d x hd
    exact votesExt_trans hd (syncChainCandidateV1_ext _ d x)

theorem syncElectionV1_ext (ledger : Ledger)
    (fe : Election × List (Position × List Candidate)) (db : Db) :
    ∃ t, (syncElectionV1 ledger db fe).votes = db.votes ++ t := by
  unfold syncElectionV1
  split
  · exact ⟨[], (List.append_nil _).symm⟩
  · refine foldl_preserve (fun d => ∃ t, d.votes = db.votes ++ t) _ ?_ _ db
      ⟨[], (List.append_nil _).symm⟩
    intro d x hd
    exact votesExt_trans hd (syncChainPositionV1_ext fe.2 d x)

theorem syncVoteCountsV1_ext (ledger : Ledger) (db : Db) :
    ∃ t, (syncVoteCountsV1 ledger db).votes = db.votes ++ t := by
  unfold syncVoteCountsV1
  refine foldl_preserve (fun d => ∃ t, d.votes = db.votes ++ t) _ ?_ (fetchLive db) db
    ⟨[], (List.append_nil _).symm⟩
  intro d x hd
  exact votesExt_trans hd (syncElectionV1_ext ledger x d)

/-- C7 (claim theorem). Vote rows are append-only: live ingestion (both
revisions, including every caught error path of the per-position loop)
and reconciliation (both revisions) only ever append to the Vote table —
every Vote row present before an operation is present, unchanged and in
place, after it. -/
theorem votes_append_only :
    (∀ (fault : String → Bool) (db : Db) (voter eid : String) (pids : List String),
      ∃ t, (processVoteEventV1 fault db voter eid pids).votes = db.votes ++ t) ∧
    (∀ (fault : String → Bool) (ledger : Ledger) (db : Db) (voter eid : String)
        (pids : List String),
      ∃ t, (processVoteEventFinal fault ledger db voter eid pids).votes = db.votes ++ t) ∧
    (∀ (ledger : Ledger) (db : Db),
      ∃ t, (syncVoteCountsV1 ledger db).votes = db.votes ++ t) ∧
    (∀ (ledger : Ledger) (db : Db),
      ∃ t, (syncVoteCountsFinal ledger db).votes = db.votes ++ t) := by
  refine ⟨?_, ?_, ?_, ?_⟩
  · intro fault db voter eid pids
    exact ingestLoopV1_ext fault voter eid pids db
  · intro fault ledger db voter eid pids
    unfold processVoteEventFinal
    split
    · exact ⟨[], (List.append_nil _).symm⟩
    · split
      · exact ⟨[], (List.append_nil _).symm⟩
      · exact ingestLoopFinal_ext fault _ _ pids db
  · intro ledger db
    exact syncVoteCountsV1_ext ledger db
  · intro ledger db
    exact ⟨[], by rw [syncVoteCountsFinal_votes, List.append_nil]⟩

/-- C2 (claim theorem). For a decoded event whose voter resolves to a
Student and whose position resolves to a target Candidate: if no Vote
row exists for the pair, the per-position ingestion step appends exactly
one new Vote row; if one exists, it appends none.  Stated for both
revisions of `processVoteEvent`. -/
theorem ingestion_row_delta :
    (∀ (db : Db) (voter eid pid : String) (p : Position) (st : Student)
        (cand : Candidate),
      findPositionV1 db eid pid = some p →
      findStudentV1 db voter = some st →
      (candidatesOf db p.id).head? = some cand →
      (voteExistsL db.votes st.id cand.id = false →
        (processPositionV1 db voter eid pid).votes = db.votes ++ [⟨st.id, cand.id⟩]) ∧
      (voteExistsL db.votes st.id cand.id = true →
        (processPositionV1 db voter eid pid).votes = db.votes)) ∧
    (∀ (chainPositions : List ChainPosition) (sid : String) (db : Db)
        (pid : String) (p : ChainPosition) (cid : String),
      chainPositions.find? (fun q => decide (q.id = pid)) = some p →
      selectVotedCandidate p.candidates = some cid →
      cid ≠ "" →
      (voteExistsL db.votes sid cid = false →
        (processPositionFinal chainPositions sid db pid).votes
          = db.votes ++ [⟨sid, cid⟩]) ∧
      (voteExistsL db.votes sid cid = true →
        (processPositionFinal chainPositions sid db pid).votes = db.votes)) := by
  constructor
  · intro db voter eid pid p st cand hp hs hc
    unfold processPositionV1
    simp only [hp, hs, hc]
    constructor
    · intro hx
      rw [if_neg (by simp [hx]), addLog_votes]
      exact createVote_votes_not hx
    · intro hx
      rw [if_pos hx]
      rfl
  · intro cps sid db pid p cid hf hsel hne
    unfold processPositionFinal
    simp only [hf, hsel]
    rw [if_neg hne]
    constructor
    · intro hx
      have hx' : voteExistsL (addLog db ("Detected vote for candidate " ++ cid ++
          " in position " ++ pid)).votes sid cid = false := hx
      rw [if_neg (by simp [hx']), addLog_votes, createVote_votes_not hx', addLog_votes]
    · intro hx
      have hx' : voteExistsL (addLog db ("Detected vote for candidate " ++ cid ++
          " in position " ++ pid)).votes sid cid = true := hx
      rw [if_pos hx']
      rfl

/-- Witness for C2: at a concrete store and event, resolution succeeds
and exactly one Vote row is appended for the unseen pair. -/
theorem ingestion_row_delta_witness :
    findPositionV1 baseDb "e1" "p1" = some posA ∧
    findStudentV1 baseDb "0xAB" = some stA ∧
    (candidatesOf baseDb posA.id).head? = some candA ∧
    voteExistsL baseDb.votes stA.id candA.id = false ∧
    (processPositionV1 baseDb "0xAB" "e1" "p1").votes
      = baseDb.votes ++ [⟨stA.id, candA.id⟩] :=
  ⟨by decide, by decide, by decide, by decide,
   (ingestion_row_delta.1 baseDb "0xAB" "e1" "p1" posA stA candA
     (by decide) (by decide) (by decide)).1 (by decide)⟩

/-- C3 (counterexample). The shipped `listener.js` resolves the voter by
the verbatim wallet address: with a student stored under the lowercase
wallet 0xab, the event address 0xAB resolves to no Student while 0xab
resolves to that Student — two events differing only in letter case do
not resolve to the same Student. -/
theorem wallet_case_sensitivity_cx :
    findStudentFinal baseDb "0xAB" = none ∧
    findStudentFinal baseDb "0xab" = some stA := by
  constructor
  · decide
  · decide

/-- C3 (amended claim theorem). Only the V1 revision compares wallet
addresses case-insensitively: it lowercases the incoming voter address
before the lookup, so any two events whose voter addresses agree up to
letter case resolve to the same Student; the shipped revision matches
the raw address verbatim. -/
theorem walletV1_case_insensitive (db : Db) (v1 v2 : String)
    (h : lowerStr v1 = lowerStr v2) :
    findStudentV1 db v1 = findStudentV1 db v2 := by
  unfold findStudentV1
  rw [h]

/-- Witness for C3's amended theorem at the two concrete case-variant
addresses. -/
theorem walletV1_case_insensitive_witness :
    lowerStr "0xAB" = lowerStr "0xab" ∧
    findStudentV1 baseDb "0xAB" = findStudentV1 baseDb "0xab" :=
  ⟨by decide, walletV1_case_insensitive baseDb "0xAB" "0xab" (by decide)⟩

/-- C6 (counterexample). The V1 reconciliation applies synthetic
attribution unconditionally — there is no policy flag at all: on a
store with no votes and a ledger reporting counts 2 and 1, a single
pass manufactures three Vote rows. -/
theorem synthetic_attribution_unconditional_cx :
    baseDb.votes = [] ∧
    (syncVoteCountsV1 ledgerW baseDb).votes
      = [⟨"s1", "c1"⟩, ⟨"s2", "c1"⟩, ⟨"s1", "c2"⟩] := by
  constructor
  · decide
  · decide

/-- C6 (amended claim theorem). The shipped `listener.js` reconciliation
never creates Vote rows (report-only is its only behavior); the V1
revision's synthetic attribution runs unconditionally whenever the
ledger count exceeds the local count, with no configuration guarding
it (counterexample above). -/
theorem reportOnly_pass_no_writes (ledger : Ledger) (db : Db) :
    (syncVoteCountsFinal ledger db).votes = db.votes :=
  syncVoteCountsFinal_votes ledger db

/-- C8 (claim theorem). A failure while processing one position id of an
event is caught and logged, and the remaining position ids of the same
event are still processed: in both revisions, running the per-position
loop over `ps1 ++ faulty :: ps2` equals running it over `ps1`, logging
the caught error, and then running it over `ps2`. -/
theorem position_fault_isolated :
    (∀ (fault : String → Bool) (db : Db) (voter eid : String)
        (ps1 : List String) (b : String) (ps2 : List String),
      fault b = true →
      ingestLoopV1 fault db voter eid (ps1 ++ b :: ps2)
        = ingestLoopV1 fault
            (addLog (ingestLoopV1 fault db voter eid ps1)
              ("Error processing vote for position " ++ b)) voter eid ps2) ∧
    (∀ (fault : String → Bool) (cps : List ChainPosition) (sid : String) (db : Db)
        (ps1 : List String) (b : String) (ps2 : List String),
      fault b = true →
      ingestLoopFinal fault cps sid db (ps1 ++ b :: ps2)
        = ingestLoopFinal fault cps sid
            (addLog (ingestLoopFinal fault cps sid db ps1)
              ("Error processing position " ++ b)) ps2) := by
  constructor
  · intro fault db voter eid ps1 b ps2 h
    unfold ingestLoopV1
    rw [List.foldl_append, List.foldl_cons, if_pos h]
  · intro fault cps sid db ps1 b ps2 h
    unfold ingestLoopFinal
    rw [List.foldl_append, List.foldl_cons, if_pos h]

/-- Witness for C8: with a concrete oracle under which only p2 throws,
the loop over [p1, p2, p1] factors through the logged failure at p2. -/
theorem position_fault_isolated_witness :
    faultP2 "p2" = true ∧
    ingestLoopV1 faultP2 baseDb "0xab" "e1" (["p1"] ++ "p2" :: ["p1"])
      = ingestLoopV1 faultP2
          (addLog (ingestLoopV1 faultP2 baseDb "0xab" "e1" ["p1"])
            ("Error processing vote for position " ++ "p2")) "0xab" "e1" ["p1"] :=
  ⟨by decide,
   position_fault_isolated.1 faultP2 baseDb "0xab" "e1" ["p1"] "p2" ["p1"] (by decide)⟩

/-- C9 (counterexample). In the V1 revision (and the first `listener.js`
revision, whose `main` is identical), a failed listener setup and an
uncaught startup fault both terminate the process with exit code 1
instead of retrying. -/
theorem mainV1_exits_cx :
    mainV1 StartupEvent.setupFailed = SupervisorAction.exitProcess 1 ∧
    mainV1 StartupEvent.faulted = SupervisorAction.exitProcess 1 := by
  constructor
  · rfl
  · rfl

/-- C9 (amended claim theorem). Only the shipped `listener.js`
supervisor retries: there, any startup outcome other than success —
including failure to set up the contract listener — schedules a retry
of `main` after the fixed 60 s delay; the V1 revision and the first
`listener.js` revision exit the process instead. -/
theorem mainFinal_retries (ev : StartupEvent) (h : ev ≠ StartupEvent.ok) :
    mainFinal ev = SupervisorAction.retry 60000 := by
  cases ev with
  | ok => exact absurd rfl h
  | setupFailed => rfl
  | faulted => rfl

/-- Witness for C9's amended theorem at the concrete setup-failure
outcome. -/
theorem mainFinal_retries_witness :
    StartupEvent.setupFailed ≠ StartupEvent.ok ∧
    mainFinal StartupEvent.setupFailed = SupervisorAction.retry 60000 :=
  ⟨by decide, mainFinal_retries StartupEvent.setupFailed (by decide)⟩

/-- C5 (claim theorem). For a candidate whose ledger count exceeds the
local count: the shipped (report-only) pass writes no Vote rows anywhere
and its per-candidate step logs both counts and the mismatch; the V1
(synthetic-attribution) per-candidate repair appends at most `delta` new
Vote rows, each for this candidate and each attributed to a distinct
eligible Student who had no Vote row for the candidate. -/
theorem reconciliation_policy_behavior :
    (∀ (ledger : Ledger) (db : Db),
      (syncVoteCountsFinal ledger db).votes = db.votes) ∧
    (∀ (db : Db) (cid : String) (cnt : Nat),
      dbVoteCountL db.votes cid < cnt →
      (syncCandidateFinal db cid cnt).votes = db.votes ∧
      (syncCandidateFinal db cid cnt).log = db.log ++
        ["Candidate " ++ cid ++ ": On-chain votes = " ++ toString cnt ++
          ", Database votes = " ++ toString (dbVoteCountL db.votes cid),
         "Vote count mismatch for candidate " ++ cid ++ ": On-chain=" ++
          toString cnt ++ ", DB=" ++ toString (dbVoteCountL db.votes cid)]) ∧
    (∀ (db : Db) (cid : String) (cnt : Nat),
      (db.students.map Student.id).Nodup →
      dbVoteCountL db.votes cid < cnt →
      ∃ new : List Vote,
        (syncCandidate db cid cnt).votes = db.votes ++ new ∧
        new.length ≤ cnt - dbVoteCountL db.votes cid ∧
        (new.map Vote.studentId).Nodup ∧
        ∀ v ∈ new, v.candidateId = cid ∧
          ∃ st ∈ db.students, st.id = v.studentId ∧ st.eligible = true ∧
            voteExistsL db.votes st.id cid = false) := by
  refine ⟨?_, ?_, ?_⟩
  · exact syncVoteCountsFinal_votes
  · intro db cid cnt h
    unfold syncCandidateFinal
    rw [if_pos (by omega)]
    constructor
    · rfl
    · simp [addLog]
  · intro db cid cnt hnd hlt
    unfold syncCandidate
    rw [if_pos hlt]
    set pool := poolL db.students db.votes cid with hpool
    set delta := cnt - dbVoteCountL db.votes cid with hdelta
    set chosen := pool.take delta with hchosen
    have hsubl : chosen.Sublist db.students :=
      (List.take_sublist delta pool).trans (List.filter_sublist db.students)
    have hndc : (chosen.map Student.id).Nodup :=
      List.Nodup.sublist (List.Sublist.map Student.id hsubl) hnd
    have hnvc : ∀ t ∈ chosen,
        voteExistsL (addLog db ("Adding " ++ toString delta ++
          " missing votes for candidate " ++ cid)).votes t.id cid = false := by
      intro t ht
      have hp : t ∈ pool := (List.take_sublist delta pool).subset ht
      have hmf := List.of_mem_filter hp
      simp only [Bool.and_eq_true, Bool.not_eq_true'] at hmf
      exact hmf.2
    have hfold := fold_create_exact cid chosen
      (addLog db ("Adding " ++ toString delta ++
        " missing votes for candidate " ++ cid)) hndc hnvc
    refine ⟨chosen.map (fun t => Vote.mk t.id cid), ?_, ?_, ?_, ?_⟩
    · exact hfold
    · rw [List.length_map, hchosen, List.length_take]
      exact min_le_left _ _
    · simpa [List.map_map, Function.comp] using hndc
    · intro v hv
      rcases List.mem_map.mp hv with ⟨t, ht, rfl⟩
      have hp : t ∈ pool := (List.take_sublist delta pool).subset ht
      have hmf := List.of_mem_filter hp
      simp only [Bool.and_eq_true, Bool.not_eq_true'] at hmf
      exact ⟨rfl, t, hsubl.subset ht, rfl, hmf.1, hmf.2⟩

/-- Witness for C5: on a concrete store with drift 2 for candidate c1,
the V1 repair appends at most two attributed rows (and the hypotheses
hold). -/
theorem reconciliation_policy_behavior_witness :
    (baseDb.students.map Student.id).Nodup ∧
    dbVoteCountL baseDb.votes "c1" < 2 ∧
    (∃ new : List Vote,
      (syncCandidate baseDb "c1" 2).votes = baseDb.votes ++ new ∧
      new.length ≤ 2 - dbVoteCountL baseDb.votes "c1" ∧
      (new.map Vote.studentId).Nodup ∧
      ∀ v ∈ new, v.candidateId = "c1" ∧
        ∃ st ∈ baseDb.students, st.id = v.studentId ∧ st.eligible = true ∧
          voteExistsL baseDb.votes st.id "c1" = false) :=
  ⟨by decide, by decide,
   reconciliation_policy_behavior.2.2 baseDb "c1" 2 (by decide) (by decide)⟩

/-! ### The highest-vote selection heuristic -/

theorem selectFold_spec :
    ∀ (l : List ChainCandidate) (mx : Nat) (sel : Option String),
      (l.foldl selectStep (mx, sel) = (mx, sel) ∧ ∀ c ∈ l, c.voteCount ≤ mx) ∨
      (∃ pre c suf, l = pre ++ c :: suf ∧
        (l.foldl selectStep (mx, sel)).2 = some c.id ∧
        (l.foldl selectStep (mx, sel)).1 = c.voteCount ∧
        mx < c.voteCount ∧ ∀ c' ∈ pre, c'.voteCount < c.voteCount) := by
  intro l
  induction l with
  | nil => intro mx sel; left; exact ⟨rfl, by simp⟩
  | cons c t ih =>
    intro mx sel
    rw [List.foldl_cons]
    by_cases hc : mx < c.voteCount
    · have hstep : selectStep (mx, sel) c = (c.voteCount, some c.id) := by
        unfold selectStep
        rw [if_pos hc]
      rw [hstep]
      rcases ih c.voteCount (some c.id) with ⟨heq, hall⟩ |
        ⟨pre, c', suf, hl, h2, h1, hgt, hpre⟩
      · right
        refine ⟨[], c, t, rfl, ?_, ?_, hc, by simp⟩
        · rw [heq]
        · rw [heq]
      · right
        refine ⟨c :: pre, c', suf, by rw [hl, List.cons_append], h2, h1, lt_trans hc hgt, ?_⟩
        intro x hx
        rcases List.mem_cons.mp hx with rfl | hx
        · exact hgt
        · exact hpre x hx
    · have hstep : selectStep (mx, sel) c = (mx, sel) := by
        unfold selectStep
        rw [if_neg hc]
      rw [hstep]
      rcases ih mx sel with ⟨heq, hall⟩ | ⟨pre, c', suf, hl, h2, h1, hgt, hpre⟩
      · left
        refine ⟨heq, ?_⟩
        intro x hx
        rcases List.mem_cons.mp hx with rfl | hx
        · omega
        · exact hall x hx
      · right
        refine ⟨c :: pre, c', suf, by rw [hl, List.cons_append], h2, h1, hgt, ?_⟩
        intro x hx
        rcases List.mem_cons.mp hx with rfl | hx
        · omega
        · exact hpre x hx

theorem select_none_of_all_zero (cands : List ChainCandidate)
    (hz : ∀ c ∈ cands, c.voteCount = 0) :
    selectVotedCandidate cands = none := by
  unfold selectVotedCandidate
  rcases selectFold_spec cands 0 none with ⟨heq, _⟩ |
    ⟨pre, c, suf, hl, h2, h1, hgt, _⟩
  · rw [heq]
  · exfalso
    have hmem : c ∈ cands := by
      rw [hl]
      exact List.mem_append.mpr (Or.inr (List.mem_cons_self c suf))
    have := hz c hmem
    omega

theorem select_some_spec (cands : List ChainCandidate) (cid : String)
    (h : selectVotedCandidate cands = some cid) :
    ∃ pre c suf, cands = pre ++ c :: suf ∧ c.id = cid ∧ 0 < c.voteCount ∧
      ∀ c' ∈ pre, c'.voteCount < c.voteCount := by
  unfold selectVotedCandidate at h
  rcases selectFold_spec cands 0 none with ⟨heq, _⟩ |
    ⟨pre, c, suf, hl, h2, h1, hgt, hpre⟩
  · rw [heq] at h
    cases h
  · exact ⟨pre, c, suf, hl, Option.some.inj (h2.symm.trans h), hgt, hpre⟩

/-- C10 (claim theorem). In the shipped highest-vote heuristic a
candidate is selected only with a vote count strictly above zero and
strictly above every earlier candidate's count; when every candidate of
the event's position reports zero votes, no candidate is selected, a
warning is logged, and no Vote row is created for that position. -/
theorem highest_vote_selection :
    (∀ (cands : List ChainCandidate),
      (∀ c ∈ cands, c.voteCount = 0) → selectVotedCandidate cands = none) ∧
    (∀ (cands : List ChainCandidate) (cid : String),
      selectVotedCandidate cands = some cid →
      ∃ pre c suf, cands = pre ++ c :: suf ∧ c.id = cid ∧ 0 < c.voteCount ∧
        ∀ c' ∈ pre, c'.voteCount < c.voteCount) ∧
    (∀ (cps : List ChainPosition) (sid : String) (db : Db) (pid : String)
        (p : ChainPosition),
      cps.find? (fun q => decide (q.id = pid)) = some p →
      (∀ c ∈ p.candidates, c.voteCount = 0) →
      (processPositionFinal cps sid db pid).votes = db.votes ∧
      (processPositionFinal cps sid db pid).log
        = db.log ++ ["Could not determine voted candidate for position " ++ pid]) := by
  refine ⟨?_, ?_, ?_⟩
  · exact select_none_of_all_zero
  · exact select_some_spec
  · intro cps sid db pid p hf hz
    unfold processPositionFinal
    simp only [hf, select_none_of_all_zero p.candidates hz]
    exact ⟨rfl, rfl⟩

/-- Witness for C10: at a concrete position whose two candidates both
report zero votes, the per-position step creates nothing and logs the
warning. -/
theorem highest_vote_selection_witness :
    chainZ.candidates.all (fun c => decide (c.voteCount = 0)) = true ∧
    (processPositionFinal [chainZ] "s1" baseDb "p1").votes = baseDb.votes ∧
    (processPositionFinal [chainZ] "s1" baseDb "p1").log
      = baseDb.log ++ ["Could not determine voted candidate for position " ++ "p1"] :=
  ⟨by decide,
   (highest_vote_selection.2.2 [chainZ] "s1" baseDb "p1" chainZ
     (by decide) (by decide)).1,
   (highest_vote_selection.2.2 [chainZ] "s1" baseDb "p1" chainZ
     (by decide) (by decide)).2⟩

end PolyVote
